import Mathlib

/-!
Shallow embedding of the promqtt ingestion-to-metric pipeline:
the Prometheus metric registry (`src/promqtt/prom.py`, class
`PrometheusExporter`) and the MQTT dispatcher / value pipeline
(`src/promqtt/tasmota.py`, `_is_topic_matching`, `TasmotaMQTTClient`).

Python dicts are modelled as insertion-ordered association lists
(`List (String × _)`); `datetime` timestamps and timeouts are modelled as
integers (seconds); the mutable registry becomes explicit state passing.
-/

namespace Promqtt

/-- One sample of a series: the pre-formatted value string and the
last-update timestamp (`item: dict('value': ?, 'timestamp': datetime)`). -/
structure Item where
  value : String
  timestamp : Int
  deriving Repr, DecidableEq

/-- One registered measurement (`measurement: dict('help', 'type', 'data',
'timeout')`).  `data` is the insertion-ordered series map from series name
(`i_name`) to `Item`. -/
structure Measurement where
  help : String
  type : String
  data : List (String × Item)
  timeout : Option Int
  deriving Repr, DecidableEq

/-- The registry state `self._prom`: insertion-ordered map from measurement
name to `Measurement`. -/
abbrev Registry := List (String × Measurement)

/-- Python `m_name in self._prom`. -/
def hasKey (st : Registry) (m_name : String) : Bool :=
  st.any (fun e => e.1 = m_name)

/-- Python dict assignment `d[k] = v`: update in place when the key exists,
otherwise append at the end (insertion order). -/
def dictSet (d : List (String × Item)) (k : String) (v : Item) :
    List (String × Item) :=
  if d.any (fun e => e.1 = k) then
    d.map (fun e => if e.1 = k then (k, v) else e)
  else
    d ++ [(k, v)]

/-- Python `d[k]` on a dict, modelled on the association list. -/
def dictGet {β : Type} (d : List (String × β)) (k : String) : Option β :=
  match d with
  | [] => none
  | e :: rest => if e.1 = k then some e.2 else dictGet rest k

/-- The invariant a Python dict gives its association-list model: no key
occurs twice. -/
def NodupKeys {β : Type} (d : List (String × β)) : Prop :=
  (d.map Prod.fst).Nodup

/-- Lexicographic comparison of code-point sequences — the order Python
`sorted` applies to strings. -/
def charListLe : List Char → List Char → Bool
  | [], _ => true
  | _ :: _, [] => false
  | a :: as, b :: bs =>
      if a < b then true
      else if b < a then false
      else charListLe as bs

/-- Python string comparison `a <= b`. -/
def pyStrLe (a b : String) : Bool := charListLe a.data b.data

/-- `pyStrLe` as a relation, for sorting. -/
def pyStrRel (a b : String) : Prop := pyStrLe a b = true

instance : DecidableRel pyStrRel := fun a b =>
  inferInstanceAs (Decidable (pyStrLe a b = true))

/-- Python `sorted` on a list of strings. -/
def pySorted (l : List String) : List String :=
  l.insertionSort pyStrRel

/-- `','.join(['{0}="{1}"'.format(k, labels[k]) for k in sorted(labels.keys())])`
from `PrometheusExporter.set`. -/
def labelstr (labels : List (String × String)) : String :=
  String.intercalate ","
    ((pySorted (labels.map Prod.fst)).map
      (fun k => k ++ "=\"" ++ (dictGet labels k).getD "" ++ "\""))

/-- The series key `i_name = '{m_name}{{{labels}}}'`. -/
def seriesName (m_name : String) (labels : List (String × String)) : String :=
  m_name ++ "\x7b" ++ labelstr labels ++ "\x7d"

namespace PrometheusExporter

/-- `PrometheusExporter.register`: raise when the name exists, otherwise add
the measurement with an empty series map. -/
def register (st : Registry) (m_name datatype helpstr : String)
    (timeout : Option Int) : Except String Registry :=
  if hasKey st m_name then
    Except.error "Measurement already registered"
  else
    Except.ok (st ++ [(m_name, ⟨helpstr, datatype, [], timeout⟩)])

/-- `PrometheusExporter.set`: `value = some v` stores the formatted value
with the current timestamp; `value = none` deletes the series when present.
An unknown measurement name logs an error and leaves the state unchanged. -/
def set (st : Registry) (m_name : String) (labels : List (String × String))
    (value : Option String) (now : Int) : Registry :=
  let i_name := seriesName m_name labels
  if hasKey st m_name then
    st.map (fun e =>
      if e.1 = m_name then
        match value with
        | some v => (e.1, { e.2 with data := dictSet e.2.data i_name ⟨v, now⟩ })
        | none =>
            (e.1, { e.2 with
              data := e.2.data.filter (fun it => it.1 ≠ i_name) })
      else e)
  else
    st

/-- `if not timeout: continue` — a timeout of `None` or `0` disables
eviction. -/
def timeoutActive : Option Int → Bool
  | none => false
  | some t => t != 0

/-- Eviction of one measurement's series map: remove every item with
`(now - item['timestamp']).total_seconds() >= timeout`. -/
def evictData (now : Int) (timeout : Option Int)
    (data : List (String × Item)) : List (String × Item) :=
  match timeout with
  | none => data
  | some t =>
      if t = 0 then data
      else data.filter (fun it => decide (now - it.2.timestamp < t))

/-- `PrometheusExporter._check_timeout`: for every measurement with an
active timeout, drop the timed-out items. -/
def check_timeout (st : Registry) (now : Int) : Registry :=
  st.map (fun e =>
    if timeoutActive e.2.timeout then
      (e.1, { e.2 with data := evictData now e.2.timeout e.2.data })
    else e)

/-- The lines emitted by `PrometheusExporter.render` after eviction:
metrics with no items are skipped; otherwise a HELP line, a TYPE line and
one line per series. -/
def renderLines (st : Registry) : List String :=
  st.flatMap (fun e =>
    if e.2.data.isEmpty then []
    else
      ("# HELP " ++ e.1 ++ " " ++ e.2.help) ::
      ("# TYPE " ++ e.1 ++ " " ++ e.2.type) ::
      e.2.data.map (fun it => it.1 ++ " " ++ it.2.value))

/-- `'\n'.join(lines)`. -/
def joinLines : List String → String
  | [] => ""
  | [l] => l
  | l :: ls => l ++ "\n" ++ joinLines ls

/-- `PrometheusExporter.render`: under the lock, first `_check_timeout`,
then produce the exposition text.  Returns the text together with the
post-render registry state (the in-place mutation made by eviction). -/
def render (st : Registry) (now : Int) : String × Registry :=
  let st2 := check_timeout st now
  (joinLines (renderLines st2), st2)

end PrometheusExporter

/-- `_is_topic_matching(ch_topic, msg_topic)` from `tasmota.py`: equal
segment counts, and every pattern segment is `'+'` or equals the topic
segment at the same index. -/
def is_topic_matching (ch_topic msg_topic : List String) : Bool :=
  if ch_topic.length ≠ msg_topic.length then false
  else
    (List.zip ch_topic msg_topic).all
      (fun p => p.1 = "+" ∨ p.1 = p.2)

/-- The intermediate pipeline value in `_handle_channel`: after step 2 the
value is a string; a map hit or a scale turns it into a number; a map miss
or a failed numeric coercion turns it into `float('nan')`. -/
inductive PVal where
  | str : String → PVal
  | num : Rat → PVal
  | nan : PVal
  deriving Repr, DecidableEq

/-- `'{0}'.format(value)` — the stringification applied by
`PrometheusExporter.set` to the value handed over by the pipeline. -/
def pvalStr : PVal → String
  | .str s => s
  | .num x => toString x
  | .nan => "nan"

/-- The per-channel configuration consumed by `_handle_channel`
(`chnl` dict): topic pattern, parse mode, value expression, optional map
table, optional factor/offset.  A field of `none` models a key absent from
the dict. -/
structure Channel where
  topic : List String
  parse : String
  value : String
  map : Option (List (String × Rat))
  factor : Option Rat
  offset : Option Rat
  ch_name : String

/-- The outcome, for one (device, channel, message) triple, of every
template resolution and payload parse that `_handle_channel` performs:
`parseOk = false` models `json.loads` raising, `extract = none` models a
`KeyError` from `chnl['value'].format(...)`, `bindOk = false` models an
exception while resolving the label or measurement templates, and
`bindLabels` / `bindMeasurement` are the resolved results. -/
structure MsgEnv where
  parseOk : Bool
  extract : Option String
  bindOk : Bool
  bindLabels : List (String × String)
  bindMeasurement : String

/-- The observable outcome of `_handle_channel`: an exception propagating
to the caller (`failed`), a silent debug-logged `return` (`skipped`), or a
call to `PrometheusExporter.set` (`emitted`). -/
inductive ChannelResult where
  | failed
  | skipped
  | emitted (name : String) (labels : List (String × String)) (value : PVal)
  deriving Repr, DecidableEq

/-- `TasmotaMQTTClient._handle_channel`: parse, extract (a `KeyError` is
caught and skips), map (miss gives NaN), scale (`ValueError` gives NaN),
bind, then emit.  `pf` models Python `float(·)` on strings (`none` models
`ValueError`). -/
def handle_channel (chnl : Channel) (env : MsgEnv)
    (pf : String → Option Rat) : ChannelResult :=
  if chnl.parse = "json" && !env.parseOk then .failed
  else
    match env.extract with
    | none => .skipped
    | some v0 =>
      let v1 : PVal :=
        match chnl.map with
        | some table =>
            match dictGet table v0 with
            | some n => .num n
            | none => .nan
        | none => .str v0
      let v2 : PVal :=
        if chnl.factor.isSome || chnl.offset.isSome then
          match v1 with
          | .nan => .nan
          | .num x => .num (x * chnl.factor.getD 1 + chnl.offset.getD 0)
          | .str s =>
              match pf s with
              | some x => .num (x * chnl.factor.getD 1 + chnl.offset.getD 0)
              | none => .nan
        else v1
      if env.bindOk then .emitted env.bindMeasurement env.bindLabels v2
      else .failed

/-- A configured device: its name and its channel dict (insertion ordered). -/
structure Device where
  dev_name : String
  channels : List Channel

/-- One iteration of the channel loop in `_handle_device`: a channel whose
topic matches is run through the pipeline; `emitted` calls
`PrometheusExporter.set`; `skipped` returns silently and `failed` is
caught by the `except` block, so both leave the registry unchanged and the
loop continues. -/
def channelStep (now : Int) (pf : String → Option Rat)
    (envOf : Channel → MsgEnv) (msgTopic : List String)
    (st : Registry) (chnl : Channel) : Registry :=
  if is_topic_matching chnl.topic msgTopic then
    match handle_channel chnl (envOf chnl) pf with
    | .emitted name labels v =>
        PrometheusExporter.set st name labels (some (pvalStr v)) now
    | .skipped => st
    | .failed => st
  else st

/-- `TasmotaMQTTClient._handle_device`: the loop over the device's
channels. -/
def handle_device (now : Int) (pf : String → Option Rat)
    (envOf : Channel → MsgEnv) (msgTopic : List String)
    (dev : Device) (st : Registry) : Registry :=
  dev.channels.foldl (channelStep now pf envOf msgTopic) st

/-- The device loop of `TasmotaMQTTClient.on_mqtt_msg`. -/
def on_mqtt_msg (now : Int) (pf : String → Option Rat)
    (envOf : Channel → MsgEnv) (msgTopic : List String)
    (devs : List Device) (st : Registry) : Registry :=
  devs.foldl (fun st dev => handle_device now pf envOf msgTopic dev st) st

/-! ## Helper lemmas -/

theorem dictGet_mem {β : Type} {d : List (String × β)} {k : String} {v : β}
    (h : dictGet d k = some v) : (k, v) ∈ d := by
  induction d with
  | nil => simp [dictGet] at h
  | cons e rest ih =>
    simp only [dictGet] at h
    by_cases he : e.1 = k
    · simp [he] at h
      have : (k, v) = e := by
        rw [← he, ← h]
      rw [this]
      exact List.mem_cons_self e rest
    · simp [he] at h
      exact List.mem_cons_of_mem _ (ih h)

theorem mem_dictGet {β : Type} {d : List (String × β)} {k : String} {v : β}
    (hnd : NodupKeys d) (h : (k, v) ∈ d) : dictGet d k = some v := by
  induction d with
  | nil => simp at h
  | cons e rest ih =>
    simp only [NodupKeys, List.map_cons, List.nodup_cons] at hnd
    rcases List.mem_cons.mp h with h1 | h2
    · simp [dictGet, ← h1]
    · have hk : k ∈ rest.map Prod.fst :=
        List.mem_map.mpr ⟨(k, v), h2, rfl⟩
      have he : e.1 ≠ k := fun hek => hnd.1 (hek ▸ hk)
      simp [dictGet, he]
      exact ih hnd.2 h2

theorem dictGet_eq_none {β : Type} {d : List (String × β)} {k : String} :
    dictGet d k = none ↔ k ∉ d.map Prod.fst := by
  induction d with
  | nil => simp [dictGet]
  | cons e rest ih =>
    by_cases he : e.1 = k
    · simp [dictGet, he]
    · simp [dictGet, he, ih, Ne.symm he]

theorem dictGet_perm {β : Type} {l1 l2 : List (String × β)}
    (hp : l1.Perm l2) (hnd : NodupKeys l1) (k : String) :
    dictGet l1 k = dictGet l2 k := by
  have hnd2 : NodupKeys l2 := (hp.map Prod.fst).nodup_iff.mp hnd
  cases h : dictGet l1 k with
  | some v => exact (mem_dictGet hnd2 (hp.mem_iff.mp (dictGet_mem h))).symm
  | none =>
    have : k ∉ l2.map Prod.fst :=
      fun hk => (dictGet_eq_none.mp h) ((hp.map Prod.fst).mem_iff.mpr hk)
    exact (dictGet_eq_none.mpr this).symm

theorem charListLe_trans : ∀ (as bs cs : List Char),
    charListLe as bs = true → charListLe bs cs = true →
    charListLe as cs = true
  | [], _, _, _, _ => rfl
  | _ :: _, [], _, h1, _ => by simp [charListLe] at h1
  | _ :: _, _ :: _, [], _, h2 => by simp [charListLe] at h2
  | a :: as, b :: bs, c :: cs, h1, h2 => by
    simp only [charListLe] at *
    by_cases hab : a < b
    · by_cases hbc : b < c
      · simp [lt_trans hab hbc]
      · by_cases hcb : c < b
        · simp [hbc, hcb] at h2
        · have hbc2 : b = c := le_antisymm (not_lt.mp hcb) (not_lt.mp hbc)
          simp [hbc2 ▸ hab]
    · by_cases hba : b < a
      · simp [hab, hba] at h1
      · have hab2 : a = b := le_antisymm (not_lt.mp hba) (not_lt.mp hab)
        subst hab2
        by_cases hac : a < c
        · simp [hac]
        · by_cases hca : c < a
          · simp [hac, hca] at h2
          · simp only [hab, hac, hca, if_false] at *
            exact charListLe_trans as bs cs h1 h2

theorem charListLe_total : ∀ (as bs : List Char),
    charListLe as bs = true ∨ charListLe bs as = true
  | [], _ => Or.inl rfl
  | _ :: _, [] => Or.inr rfl
  | a :: as, b :: bs => by
    simp only [charListLe]
    by_cases hab : a < b
    · simp [hab]
    · by_cases hba : b < a
      · simp [hab, hba]
      · simpa [hab, hba] using charListLe_total as bs

theorem charListLe_antisymm : ∀ (as bs : List Char),
    charListLe as bs = true → charListLe bs as = true → as = bs
  | [], [], _, _ => rfl
  | _ :: _, [], h1, _ => by simp [charListLe] at h1
  | [], _ :: _, _, h2 => by simp [charListLe] at h2
  | a :: as, b :: bs, h1, h2 => by
    simp only [charListLe] at h1 h2
    by_cases hab : a < b
    · simp [hab, lt_asymm hab] at h2
    · by_cases hba : b < a
      · simp [hab, hba] at h1
      · have hab2 : a = b := le_antisymm (not_lt.mp hba) (not_lt.mp hab)
        simp only [hab, hba, if_false] at h1 h2
        rw [hab2, charListLe_antisymm as bs h1 h2]

theorem pySorted_sorted (l : List String) :
    List.Sorted pyStrRel (pySorted l) :=
  @List.sorted_insertionSort String pyStrRel _
    ⟨fun a b => charListLe_total a.data b.data⟩
    ⟨fun a b c h1 h2 => charListLe_trans a.data b.data c.data h1 h2⟩ l

theorem pySorted_perm (l : List String) : (pySorted l).Perm l :=
  List.perm_insertionSort pyStrRel l

theorem pySorted_perm_eq {l1 l2 : List String} (hp : l1.Perm l2) :
    pySorted l1 = pySorted l2 :=
  @List.eq_of_perm_of_sorted String pyStrRel
    ⟨fun a b h1 h2 => String.ext (charListLe_antisymm a.data b.data h1 h2)⟩
    _ _
    ((pySorted_perm l1).trans (hp.trans (pySorted_perm l2).symm))
    (pySorted_sorted l1) (pySorted_sorted l2)

theorem labelstr_perm {L1 L2 : List (String × String)}
    (hp : L1.Perm L2) (hnd : NodupKeys L1) : labelstr L1 = labelstr L2 := by
  unfold labelstr
  rw [pySorted_perm_eq (hp.map Prod.fst)]
  congr 1
  exact List.map_congr_left (fun k _ => by rw [dictGet_perm hp hnd k])

theorem seriesName_perm {L1 L2 : List (String × String)} (m_name : String)
    (hp : L1.Perm L2) (hnd : NodupKeys L1) :
    seriesName m_name L1 = seriesName m_name L2 := by
  unfold seriesName
  rw [labelstr_perm hp hnd]

theorem list_map_eq_self {α : Type} {l : List α} {f : α → α}
    (h : ∀ a ∈ l, f a = a) : l.map f = l := by
  induction l with
  | nil => rfl
  | cons a l ih =>
      simp [h a (List.mem_cons_self a l),
        ih (fun b hb => h b (List.mem_cons_of_mem a hb))]

theorem hasKey_set (st : Registry) (m k : String)
    (labels : List (String × String)) (value : Option String) (now : Int) :
    hasKey (PrometheusExporter.set st m labels value now) k = hasKey st k := by
  unfold PrometheusExporter.set
  by_cases hk : hasKey st m
  · simp only [hk, if_true]
    unfold hasKey
    rw [List.any_map]
    congr 1
    funext e
    cases value <;> by_cases hem : e.1 = m <;>
      simp [Function.comp, hem]
  · simp [hk]

theorem set_none_noop (st : Registry) (m_name : String)
    (labels : List (String × String)) (now : Int)
    (h : ∀ e ∈ st, e.1 = m_name →
      seriesName m_name labels ∉ e.2.data.map Prod.fst) :
    PrometheusExporter.set st m_name labels none now = st := by
  by_cases hk : hasKey st m_name
  · simp only [PrometheusExporter.set, hk, if_true]
    apply list_map_eq_self
    intro e he
    by_cases hem : e.1 = m_name
    · have hfil : e.2.data.filter
          (fun it => decide (it.1 ≠ seriesName m_name labels))
          = e.2.data := by
        apply List.filter_eq_self.mpr
        intro it hit
        simp only [decide_eq_true_eq]
        intro hcon
        exact h e he hem (hcon ▸ List.mem_map.mpr ⟨it, hit, rfl⟩)
      rw [if_pos hem, hfil]
    · rw [if_neg hem]
  · simp [PrometheusExporter.set, hk]

theorem topic_match_spec (p t : List String) :
    is_topic_matching p t = true ↔
      (p.length = t.length ∧
        ∀ (i : Nat) (hp : i < p.length) (ht : i < t.length),
          p.get ⟨i, hp⟩ = "+" ∨ p.get ⟨i, hp⟩ = t.get ⟨i, ht⟩) := by
  induction p generalizing t with
  | nil =>
    cases t with
    | nil => simp [is_topic_matching]
    | cons b tb => simp [is_topic_matching]
  | cons a pa ih =>
    cases t with
    | nil => simp [is_topic_matching]
    | cons b tb =>
      by_cases hlen : pa.length = tb.length
      · have hmain : is_topic_matching (a :: pa) (b :: tb)
            = (decide (a = "+" ∨ a = b) && is_topic_matching pa tb) := by
          simp [is_topic_matching, hlen]
        rw [hmain]
        constructor
        · intro h
          simp only [Bool.and_eq_true, decide_eq_true_eq] at h
          obtain ⟨h1, h2⟩ := h
          have hrest := (ih tb).mp h2
          refine ⟨by simp [hlen], ?_⟩
          intro i hp ht
          cases i with
          | zero => simpa using h1
          | succ n =>
              exact hrest.2 n (by simpa using hp) (by simpa using ht)
        · rintro ⟨-, hall⟩
          simp only [Bool.and_eq_true, decide_eq_true_eq]
          refine ⟨by simpa using hall 0 (by simp) (by simp), ?_⟩
          apply (ih tb).mpr
          refine ⟨hlen, fun n hp ht => ?_⟩
          simpa using hall (n + 1) (by simpa using hp) (by simpa using ht)
      · have hne : (a :: pa).length ≠ (b :: tb).length := by
          simpa using hlen
        have hm : is_topic_matching (a :: pa) (b :: tb) = false := by
          unfold is_topic_matching
          rw [if_pos hne]
        rw [hm]
        constructor
        · intro h
          exact absurd h (by simp)
        · rintro ⟨hl, -⟩
          exact absurd (by simpa using hl) hlen

theorem channelStep_noop (now : Int) (pf : String → Option Rat)
    (envOf : Channel → MsgEnv) (msgTopic : List String)
    (st : Registry) (chnl : Channel)
    (h : handle_channel chnl (envOf chnl) pf = ChannelResult.failed
      ∨ handle_channel chnl (envOf chnl) pf = ChannelResult.skipped
      ∨ is_topic_matching chnl.topic msgTopic = false) :
    channelStep now pf envOf msgTopic st chnl = st := by
  unfold channelStep
  by_cases hm : is_topic_matching chnl.topic msgTopic = true
  · rcases h with h | h | h
    · simp [hm, h]
    · simp [hm, h]
    · rw [h] at hm
      exact absurd hm (by simp)
  · simp [hm]

theorem foldl_channelStep_noop (now : Int) (pf : String → Option Rat)
    (envOf : Channel → MsgEnv) (msgTopic : List String) :
    ∀ (cs : List Channel) (st : Registry),
    (∀ chnl ∈ cs,
      handle_channel chnl (envOf chnl) pf = ChannelResult.failed
      ∨ is_topic_matching chnl.topic msgTopic = false) →
    cs.foldl (channelStep now pf envOf msgTopic) st = st := by
  intro cs
  induction cs with
  | nil => intro st _; rfl
  | cons c cs ih =>
    intro st h
    rw [List.foldl_cons]
    rw [channelStep_noop now pf envOf msgTopic st c
      (by rcases h c (List.mem_cons_self c cs) with h1 | h1
          · exact Or.inl h1
          · exact Or.inr (Or.inr h1))]
    exact ih st (fun c2 hc2 => h c2 (List.mem_cons_of_mem c hc2))

theorem handle_device_noop (now : Int) (pf : String → Option Rat)
    (envOf : Channel → MsgEnv) (msgTopic : List String)
    (dev : Device) (st : Registry)
    (h : ∀ chnl ∈ dev.channels,
      handle_channel chnl (envOf chnl) pf = ChannelResult.failed
      ∨ is_topic_matching chnl.topic msgTopic = false) :
    handle_device now pf envOf msgTopic dev st = st :=
  foldl_channelStep_noop now pf envOf msgTopic dev.channels st h

theorem evictData_sub (now : Int) (timeout : Option Int)
    (data : List (String × Item)) :
    ∀ it ∈ PrometheusExporter.evictData now timeout data, it ∈ data := by
  intro it hit
  cases timeout with
  | none => exact hit
  | some t =>
    simp only [PrometheusExporter.evictData] at hit
    by_cases h0 : t = 0
    · rw [if_pos h0] at hit
      exact hit
    · rw [if_neg h0] at hit
      exact (List.mem_filter.mp hit).1

theorem check_timeout_data_sub (st : Registry) (now : Int) :
    ∀ e ∈ PrometheusExporter.check_timeout st now,
    ∃ e2, e2 ∈ st ∧ ∀ it ∈ e.2.data, it ∈ e2.2.data := by
  intro e he
  unfold PrometheusExporter.check_timeout at he
  obtain ⟨e2, he2, hfe⟩ := List.mem_map.mp he
  refine ⟨e2, he2, ?_⟩
  intro it hit
  by_cases hact : PrometheusExporter.timeoutActive e2.2.timeout = true
  · rw [if_pos hact] at hfe
    rw [← hfe] at hit
    exact evictData_sub now e2.2.timeout e2.2.data it hit
  · rw [if_neg hact] at hfe
    rw [← hfe] at hit
    exact hit

theorem data_append_ne_nil_left (a b : String) (ha : a.data ≠ []) :
    (a ++ b).data ≠ [] := by
  rw [String.data_append]
  intro h
  exact ha (List.append_eq_nil.mp h).1

theorem data_append_ne_nil_right (a b : String) (hb : b.data ≠ []) :
    (a ++ b).data ≠ [] := by
  rw [String.data_append]
  intro h
  exact hb (List.append_eq_nil.mp h).2

theorem joinLines_data_ne_nil :
    ∀ ls : List String, ls ≠ [] → (∀ l ∈ ls, l.data ≠ []) →
    (PrometheusExporter.joinLines ls).data ≠ []
  | [], h, _ => absurd rfl h
  | [l], _, h2 => by
      simpa [PrometheusExporter.joinLines] using h2 l (by simp)
  | l :: l2 :: ls, _, h2 => by
      show ((l ++ "\n") ++ PrometheusExporter.joinLines (l2 :: ls)).data ≠ []
      exact data_append_ne_nil_left _ _
        (data_append_ne_nil_left _ _ (h2 l (by simp)))

theorem joinLines_getLast :
    ∀ (ls : List String), (∀ l ∈ ls, l.data ≠ []) →
    ∀ last, ls.getLast? = some last →
    (PrometheusExporter.joinLines ls).data.getLast? = last.data.getLast?
  | [], _, last, h => by simp at h
  | [l], _, last, h => by
      have hl : l = last := by simpa using h
      show l.data.getLast? = last.data.getLast?
      rw [hl]
  | l :: l2 :: ls, hne, last, h => by
      rw [List.getLast?_cons_cons] at h
      have htail : ∀ x ∈ l2 :: ls, x.data ≠ [] :=
        fun x hx => hne x (List.mem_cons_of_mem l hx)
      have hJ : (PrometheusExporter.joinLines (l2 :: ls)).data ≠ [] :=
        joinLines_data_ne_nil (l2 :: ls) (by simp) htail
      have hrec := joinLines_getLast (l2 :: ls) htail last h
      show (((l ++ "\n") ++ PrometheusExporter.joinLines (l2 :: ls)).data).getLast?
        = last.data.getLast?
      rw [String.data_append, List.getLast?_append]
      cases hc : (PrometheusExporter.joinLines (l2 :: ls)).data.getLast? with
      | none => exact absurd (List.getLast?_eq_none_iff.mp hc) hJ
      | some c =>
          rw [hc] at hrec
          simp [Option.or, hrec]

theorem renderLines_line_ne_nil (st : Registry) :
    ∀ l ∈ PrometheusExporter.renderLines st, l.data ≠ [] := by
  intro l hl
  unfold PrometheusExporter.renderLines at hl
  obtain ⟨e, he, hle⟩ := List.mem_flatMap.mp hl
  by_cases hemp : e.2.data.isEmpty = true
  · rw [if_pos hemp] at hle
    simp at hle
  · rw [if_neg hemp] at hle
    rcases List.mem_cons.mp hle with h1 | hle2
    · rw [h1]
      exact data_append_ne_nil_left ("# HELP " ++ e.1 ++ " ") e.2.help
        (data_append_ne_nil_left ("# HELP " ++ e.1) " "
          (data_append_ne_nil_left "# HELP " e.1 (by decide)))
    · rcases List.mem_cons.mp hle2 with h2 | hle3
      · rw [h2]
        exact data_append_ne_nil_left ("# TYPE " ++ e.1 ++ " ") e.2.type
          (data_append_ne_nil_left ("# TYPE " ++ e.1) " "
            (data_append_ne_nil_left "# TYPE " e.1 (by decide)))
      · obtain ⟨it, _, hit⟩ := List.mem_map.mp hle3
        rw [← hit]
        exact data_append_ne_nil_left (it.1 ++ " ") it.2.value
          (data_append_ne_nil_right it.1 " " (by decide))

theorem renderLines_getLast_series :
    ∀ (st : Registry) (l : String),
    (PrometheusExporter.renderLines st).getLast? = some l →
    ∃ e, e ∈ st ∧ ∃ it ∈ e.2.data, l = it.1 ++ " " ++ it.2.value := by
  intro st
  induction st with
  | nil =>
      intro l hl
      simp [PrometheusExporter.renderLines] at hl
  | cons e rest ih =>
      intro l hl
      have hsplit : PrometheusExporter.renderLines (e :: rest)
          = (if e.2.data.isEmpty then []
            else
              ("# HELP " ++ e.1 ++ " " ++ e.2.help) ::
              ("# TYPE " ++ e.1 ++ " " ++ e.2.type) ::
              e.2.data.map (fun it => it.1 ++ " " ++ it.2.value))
            ++ PrometheusExporter.renderLines rest := by
        unfold PrometheusExporter.renderLines
        rw [List.flatMap_cons]
      rw [hsplit, List.getLast?_append] at hl
      cases hrest : (PrometheusExporter.renderLines rest).getLast? with
      | some l2 =>
          rw [hrest] at hl
          simp only [Option.or] at hl
          obtain ⟨e2, he2, hit⟩ := ih l2 hrest
          have : l2 = l := by simpa using hl
          exact ⟨e2, List.mem_cons_of_mem e he2, this ▸ hit⟩
      | none =>
          rw [hrest] at hl
          simp only [Option.or] at hl
          by_cases hemp : e.2.data.isEmpty = true
          · rw [if_pos hemp] at hl
            simp at hl
          · rw [if_neg hemp] at hl
            have hne : e.2.data ≠ [] := List.isEmpty_eq_false.mp
              (by simpa using hemp)
            cases hd : e.2.data with
            | nil => exact absurd hd hne
            | cons d0 ds =>
                rw [hd, List.getLast?_cons_cons, List.getLast?_cons,
                  List.getLast?_map] at hl
                cases hlast : (d0 :: ds).getLast? with
                | none => simp at hlast
                | some it =>
                    rw [hlast] at hl
                    simp only [Option.map, Option.getD, Option.some_inj] at hl
                    refine ⟨e, List.mem_cons_self e rest, it, ?_, hl.symm⟩
                    rw [hd]
                    exact List.mem_of_mem_getLast? (by simp [hlast])

theorem renderLines_eq_nil (st : Registry)
    (h : ∀ e ∈ st, e.2.data = []) :
    PrometheusExporter.renderLines st = [] := by
  unfold PrometheusExporter.renderLines
  apply List.flatMap_eq_nil_iff.mpr
  intro e he
  simp [h e he]

theorem seriesLine_lastChar (i v : String)
    (h : v.data.getLast? ≠ some (Char.ofNat 10)) :
    (i ++ " " ++ v).data.getLast? ≠ some (Char.ofNat 10) := by
  rw [String.data_append, List.getLast?_append]
  cases hv : v.data.getLast? with
  | some c =>
      rw [hv] at h
      simpa [Option.or] using h
  | none =>
      simp only [Option.or]
      show (i.data ++ [' ']).getLast? ≠ some (Char.ofNat 10)
      rw [List.getLast?_concat]
      decide

/-! ## Claim theorems -/

/-- Claim C3: `is_topic_matching` returns true iff the two segment lists
have equal length and at every index the pattern segment is the wildcard
"+" or equals the topic segment; no partial/prefix matching (the embedding
is a pure function, so determinism and absence of side effects hold by
construction).  The three concrete examples of the claim are included. -/
theorem C3_topic_matching :
    (∀ p t : List String, is_topic_matching p t = true ↔
      (p.length = t.length ∧
        ∀ (i : Nat) (hp : i < p.length) (ht : i < t.length),
          p.get ⟨i, hp⟩ = "+" ∨ p.get ⟨i, hp⟩ = t.get ⟨i, ht⟩))
    ∧ is_topic_matching ["stat", "+", "POWER"]
        ["stat", "sonoff1", "POWER"] = true
    ∧ is_topic_matching ["stat", "+", "POWER"]
        ["stat", "sonoff1", "sub", "POWER"] = false
    ∧ is_topic_matching ["stat", "+", "POWER"]
        ["cmnd", "sonoff1", "POWER"] = false :=
  ⟨topic_match_spec, by decide, by decide, by decide⟩

/-- Claim C1: at the start of every render, for each metric with a
non-zero timeout every series at least `timeout` seconds stale is removed
(conjunct 1: after `_check_timeout` every surviving series of such a
metric satisfies `now - lastUpdate < timeout`); metrics with absent or
zero timeout are never evicted (conjunct 2: their entries survive
unchanged); and the concrete scenario: a sample set at time `T` under
timeout 10 is rendered at `T + 9`, is absent from the text at `T + 11`,
and the post-render state shows it removed and not re-added. -/
theorem C1_timeout_eviction (st : Registry) (now T : Int) :
    (∀ e ∈ PrometheusExporter.check_timeout st now, ∀ it ∈ e.2.data,
      ∀ t : Int, e.2.timeout = some t → t ≠ 0 → now - it.2.timestamp < t)
    ∧ (∀ e ∈ st, PrometheusExporter.timeoutActive e.2.timeout = false →
      e ∈ PrometheusExporter.check_timeout st now)
    ∧ PrometheusExporter.register [] "temp" "gauge" "Temp" (some 10)
      = Except.ok [("temp", ⟨"Temp", "gauge", [], some 10⟩)]
    ∧ PrometheusExporter.set [("temp", ⟨"Temp", "gauge", [], some 10⟩)]
        "temp" [] (some "21") T
      = [("temp", ⟨"Temp", "gauge", [("temp\x7b\x7d", ⟨"21", T⟩)], some 10⟩)]
    ∧ (PrometheusExporter.render
        [("temp", ⟨"Temp", "gauge", [("temp\x7b\x7d", ⟨"21", T⟩)], some 10⟩)]
        (T + 9)).1
      = "# HELP temp Temp\n# TYPE temp gauge\ntemp\x7b\x7d 21"
    ∧ PrometheusExporter.render
        [("temp", ⟨"Temp", "gauge", [("temp\x7b\x7d", ⟨"21", T⟩)], some 10⟩)]
        (T + 11)
      = ("", [("temp", ⟨"Temp", "gauge", [], some 10⟩)]) := by
  refine ⟨?_, ?_, by exact rfl, by exact rfl, ?_, ?_⟩
  · intro e he it hit t htmo ht0
    unfold PrometheusExporter.check_timeout at he
    obtain ⟨e2, he2, hfe⟩ := List.mem_map.mp he
    by_cases hact : PrometheusExporter.timeoutActive e2.2.timeout = true
    · rw [if_pos hact] at hfe
      simp only [← hfe] at hit htmo
      rw [htmo] at hit
      simp only [PrometheusExporter.evictData] at hit
      rw [if_neg ht0] at hit
      have hdec := (List.mem_filter.mp hit).2
      simpa using hdec
    · rw [if_neg hact] at hfe
      rw [← hfe] at htmo
      exact absurd (by simp [PrometheusExporter.timeoutActive, htmo, ht0])
        hact
  · intro e he hact
    unfold PrometheusExporter.check_timeout
    apply List.mem_map.mpr
    refine ⟨e, he, ?_⟩
    rw [if_neg (by simp [hact])]
  · have h9 : (T + 9 : Int) - T < 10 := by omega
    simp only [PrometheusExporter.render, PrometheusExporter.check_timeout,
      PrometheusExporter.evictData, PrometheusExporter.timeoutActive,
      List.map_cons, List.map_nil, List.filter_cons, List.filter_nil, h9,
      decide_eq_true_eq]
    rfl
  · have h11 : ¬ ((T + 11 : Int) - T < 10) := by omega
    simp only [PrometheusExporter.render, PrometheusExporter.check_timeout,
      PrometheusExporter.evictData, PrometheusExporter.timeoutActive,
      List.map_cons, List.map_nil, List.filter_cons, List.filter_nil, h11,
      decide_eq_true_eq]
    rfl

/-- Witness for C1 at a concrete input: the eviction guarantee and the
never-evicted guarantee applied to a one-metric registry at time 0, and
the timed scenario instantiated at `T = 0`. -/
theorem C1_witness :
    (∀ e ∈ PrometheusExporter.check_timeout
        [("temp", ⟨"Temp", "gauge", [("temp\x7b\x7d", ⟨"21", 0⟩)], some 10⟩)]
        11,
      ∀ it ∈ e.2.data, ∀ t : Int, e.2.timeout = some t → t ≠ 0 →
        11 - it.2.timestamp < t)
    ∧ (PrometheusExporter.render
        [("temp", ⟨"Temp", "gauge", [("temp\x7b\x7d", ⟨"21", 0⟩)], some 10⟩)]
        (0 + 9)).1
      = "# HELP temp Temp\n# TYPE temp gauge\ntemp\x7b\x7d 21" :=
  ⟨(C1_timeout_eviction
      [("temp", ⟨"Temp", "gauge", [("temp\x7b\x7d", ⟨"21", 0⟩)], some 10⟩)]
      11 0).1,
   (C1_timeout_eviction
      [("temp", ⟨"Temp", "gauge", [("temp\x7b\x7d", ⟨"21", 0⟩)], some 10⟩)]
      11 0).2.2.2.2.1⟩

/-- Claim C2: two label mappings with the same key/value pairs in any
insertion order yield an identical series key (label names are sorted
lexicographically and joined as key="value" pairs), so `set` addresses the
same series of the metric with both. -/
theorem C2_series_key_order_independent (m_name : String)
    (L1 L2 : List (String × String)) (hp : L1.Perm L2)
    (hnd : NodupKeys L1) :
    seriesName m_name L1 = seriesName m_name L2
    ∧ ∀ (st : Registry) (v : Option String) (now : Int),
        PrometheusExporter.set st m_name L1 v now
          = PrometheusExporter.set st m_name L2 v now := by
  have hkey := seriesName_perm m_name hp hnd
  refine ⟨hkey, fun st v now => ?_⟩
  unfold PrometheusExporter.set
  rw [hkey]

/-- Witness for C2 at a concrete input: the two insertion orders of
room/floor labels yield the same key and the same `set` result. -/
theorem C2_witness :
    seriesName "temp" [("room", "kitchen"), ("floor", "1")]
      = seriesName "temp" [("floor", "1"), ("room", "kitchen")]
    ∧ PrometheusExporter.set [] "temp" [("room", "kitchen"), ("floor", "1")]
        (some "21") 0
      = PrometheusExporter.set [] "temp" [("floor", "1"), ("room", "kitchen")]
        (some "21") 0 :=
  ⟨(C2_series_key_order_independent "temp"
      [("room", "kitchen"), ("floor", "1")]
      [("floor", "1"), ("room", "kitchen")]
      (by decide) (by unfold NodupKeys; decide)).1,
   (C2_series_key_order_independent "temp"
      [("room", "kitchen"), ("floor", "1")]
      [("floor", "1"), ("room", "kitchen")]
      (by decide) (by unfold NodupKeys; decide)).2 [] (some "21") 0⟩

/-- Claim C6: `render` iterates metrics in definition insertion order; a
metric with zero series contributes nothing (conjunct 1), a metric with
series contributes exactly a HELP line, a TYPE line and one line per
series (conjunct 2), blocks concatenate in registry order (conjunct 3),
label names in a series key are sorted (conjunct 4), and the end-to-end
scenario — register gauge "temp" with help "Temp", set 23.4 with label
room=kitchen — renders exactly the three expected lines (conjuncts
5-7). -/
theorem C6_render_layout :
    (∀ (pre post : Registry) (e : String × Measurement), e.2.data = [] →
      PrometheusExporter.renderLines (pre ++ e :: post)
        = PrometheusExporter.renderLines (pre ++ post))
    ∧ (∀ (n : String) (m : Measurement), m.data ≠ [] →
      PrometheusExporter.renderLines [(n, m)]
        = ("# HELP " ++ n ++ " " ++ m.help) ::
          ("# TYPE " ++ n ++ " " ++ m.type) ::
          m.data.map (fun it => it.1 ++ " " ++ it.2.value))
    ∧ (∀ st1 st2 : Registry,
      PrometheusExporter.renderLines (st1 ++ st2)
        = PrometheusExporter.renderLines st1
          ++ PrometheusExporter.renderLines st2)
    ∧ (∀ labels : List (String × String),
      List.Sorted pyStrRel (pySorted (labels.map Prod.fst)))
    ∧ PrometheusExporter.register [] "temp" "gauge" "Temp" none
      = Except.ok [("temp", ⟨"Temp", "gauge", [], none⟩)]
    ∧ (∀ t : Int,
      PrometheusExporter.set [("temp", ⟨"Temp", "gauge", [], none⟩)] "temp"
        [("room", "kitchen")] (some "23.4") t
      = [("temp", ⟨"Temp", "gauge",
          [("temp\x7broom=\"kitchen\"\x7d", ⟨"23.4", t⟩)], none⟩)])
    ∧ (∀ t now : Int,
      (PrometheusExporter.render
        [("temp", ⟨"Temp", "gauge",
          [("temp\x7broom=\"kitchen\"\x7d", ⟨"23.4", t⟩)], none⟩)] now).1
      = "# HELP temp Temp\n# TYPE temp gauge\ntemp\x7broom=\"kitchen\"\x7d 23.4") := by
  refine ⟨?_, ?_, ?_, fun labels => pySorted_sorted (labels.map Prod.fst),
    by exact rfl, fun t => rfl, fun t now => rfl⟩
  · intro pre post e h
    unfold PrometheusExporter.renderLines
    rw [List.flatMap_append, List.flatMap_append, List.flatMap_cons]
    simp [h]
  · intro n m h
    unfold PrometheusExporter.renderLines
    rw [List.flatMap_cons, List.flatMap_nil, List.append_nil]
    rw [if_neg (by simp [List.isEmpty_iff, h])]
  · intro st1 st2
    unfold PrometheusExporter.renderLines
    rw [List.flatMap_append]

/-- Witness for C6 at a concrete input: the end-to-end scenario rendered
at a fixed time yields exactly the three expected lines. -/
theorem C6_witness :
    (PrometheusExporter.render
      [("temp", ⟨"Temp", "gauge",
        [("temp\x7broom=\"kitchen\"\x7d", ⟨"23.4", 0⟩)], none⟩)] 0).1
    = "# HELP temp Temp\n# TYPE temp gauge\ntemp\x7broom=\"kitchen\"\x7d 23.4" :=
  C6_render_layout.2.2.2.2.2.2 0 0

/-- Claim C7: registering an already-registered name fails with the
"already registered" error — the state-passing embedding returns no new
state, so the first registration's definition (kind, help, timeout and
series map) is untouched — and registering a fresh name appends its
definition with an empty series map. -/
theorem C7_register (st : Registry) (m_name datatype helpstr : String)
    (timeout : Option Int) :
    (hasKey st m_name = true →
      PrometheusExporter.register st m_name datatype helpstr timeout
        = Except.error "Measurement already registered")
    ∧ (hasKey st m_name = false →
      PrometheusExporter.register st m_name datatype helpstr timeout
        = Except.ok (st ++ [(m_name, ⟨helpstr, datatype, [], timeout⟩)])) := by
  constructor <;> intro h <;> simp [PrometheusExporter.register, h]

/-- Witness for C7 at a concrete input: registering "x" twice errors and
leaves nothing to merge; registering it once creates the empty series
map. -/
theorem C7_witness :
    (PrometheusExporter.register [("x", ⟨"h", "gauge", [], none⟩)]
        "x" "counter" "other" (some 5)
      = Except.error "Measurement already registered")
    ∧ (PrometheusExporter.register [] "x" "gauge" "h" none
      = Except.ok [("x", ⟨"h", "gauge", [], none⟩)]) :=
  ⟨(C7_register [("x", ⟨"h", "gauge", [], none⟩)] "x" "counter" "other"
      (some 5)).1 (by decide),
   (C7_register [] "x" "gauge" "h" none).2 (by decide)⟩

/-- Witness for C3 at a concrete input: the wildcard pattern matches the
three-segment topic. -/
theorem C3_witness :
    is_topic_matching ["stat", "+", "POWER"] ["stat", "sonoff1", "POWER"]
      = true :=
  C3_topic_matching.2.1

/-- Claim C4: for a matched channel whose extraction succeeds, a map-table
miss yields the NaN sentinel and the sample is still emitted (the pipeline
still reaches the registry `set` call), and a failed numeric coercion
under a configured factor/offset likewise yields NaN and is still
emitted — never dropped. -/
theorem C4_nan_still_emitted (chnl : Channel) (env : MsgEnv)
    (pf : String → Option Rat) (v0 : String)
    (hparse : chnl.parse = "json" → env.parseOk = true)
    (hex : env.extract = some v0) (hbind : env.bindOk = true) :
    (∀ table, chnl.map = some table → dictGet table v0 = none →
      handle_channel chnl env pf
        = ChannelResult.emitted env.bindMeasurement env.bindLabels PVal.nan)
    ∧ (chnl.map = none → (chnl.factor.isSome || chnl.offset.isSome) = true →
      pf v0 = none →
      handle_channel chnl env pf
        = ChannelResult.emitted env.bindMeasurement env.bindLabels
            PVal.nan) := by
  have hpar : (chnl.parse = "json" && !env.parseOk) = false := by
    by_cases hj : chnl.parse = "json"
    · simp [hj, hparse hj]
    · simp [hj]
  constructor
  · intro table hmap hmiss
    simp only [handle_channel, hpar, Bool.false_eq_true, if_false, hex,
      hmap, hmiss, hbind, if_true]
    by_cases hs : (chnl.factor.isSome || chnl.offset.isSome) = true <;>
      simp [hs]
  · intro hmap hs hpf
    simp [handle_channel, hpar, hex, hmap, hs, hpf, hbind]

/-- Witness for C4 at concrete inputs: an unmapped enumeration value
("UNKNOWN" against an ON/OFF table) and a non-numeric value under a
configured factor are both emitted with the NaN sentinel. -/
theorem C4_witness :
    handle_channel
      ⟨["stat", "+", "POWER"], "raw", "{value}",
        some [("ON", 1), ("OFF", 0)], none, none, "power"⟩
      ⟨true, some "UNKNOWN", true, [("dev", "d1")], "power"⟩
      (fun _ => none)
      = ChannelResult.emitted "power" [("dev", "d1")] PVal.nan
    ∧ handle_channel
      ⟨["tele", "+", "SENSOR"], "raw", "{value}", none, some 2, none, "t"⟩
      ⟨true, some "abc", true, [], "t"⟩ (fun _ => none)
      = ChannelResult.emitted "t" [] PVal.nan :=
  ⟨(C4_nan_still_emitted
      ⟨["stat", "+", "POWER"], "raw", "{value}",
        some [("ON", 1), ("OFF", 0)], none, none, "power"⟩
      ⟨true, some "UNKNOWN", true, [("dev", "d1")], "power"⟩
      (fun _ => none) "UNKNOWN" (fun _ => rfl) rfl rfl).1
      [("ON", 1), ("OFF", 0)] rfl (by decide),
   (C4_nan_still_emitted
      ⟨["tele", "+", "SENSOR"], "raw", "{value}", none, some 2, none, "t"⟩
      ⟨true, some "abc", true, [], "t"⟩ (fun _ => none) "abc"
      (fun _ => rfl) rfl rfl).2 rfl rfl rfl⟩

/-- Claim C5: a missing key in the value-extraction template makes
`_handle_channel` skip that (device, channel, message) unit with no
registry write, and a failure in one channel does not prevent the
remaining channels of the same device, nor the channels of other devices,
from being evaluated. -/
theorem C5_skip_and_isolation :
    (∀ (chnl : Channel) (env : MsgEnv) (pf : String → Option Rat),
      (chnl.parse = "json" → env.parseOk = true) → env.extract = none →
      handle_channel chnl env pf = ChannelResult.skipped)
    ∧ (∀ (now : Int) (pf : String → Option Rat) (envOf : Channel → MsgEnv)
        (msgTopic : List String) (st : Registry) (chnl : Channel),
      handle_channel chnl (envOf chnl) pf = ChannelResult.skipped →
      channelStep now pf envOf msgTopic st chnl = st)
    ∧ (∀ (now : Int) (pf : String → Option Rat) (envOf : Channel → MsgEnv)
        (msgTopic : List String) (name : String) (cs1 cs2 : List Channel)
        (chnl : Channel) (st : Registry),
      handle_channel chnl (envOf chnl) pf = ChannelResult.failed →
      handle_device now pf envOf msgTopic ⟨name, cs1 ++ chnl :: cs2⟩ st
        = handle_device now pf envOf msgTopic ⟨name, cs1 ++ cs2⟩ st)
    ∧ (∀ (now : Int) (pf : String → Option Rat) (envOf : Channel → MsgEnv)
        (msgTopic : List String) (devs1 devs2 : List Device) (dev : Device)
        (st : Registry),
      (∀ chnl ∈ dev.channels,
        handle_channel chnl (envOf chnl) pf = ChannelResult.failed
        ∨ is_topic_matching chnl.topic msgTopic = false) →
      on_mqtt_msg now pf envOf msgTopic (devs1 ++ dev :: devs2) st
        = on_mqtt_msg now pf envOf msgTopic (devs1 ++ devs2) st) := by
  refine ⟨?_, ?_, ?_, ?_⟩
  · intro chnl env pf hparse hex
    have hpar : (chnl.parse = "json" && !env.parseOk) = false := by
      by_cases hj : chnl.parse = "json"
      · simp [hj, hparse hj]
      · simp [hj]
    simp [handle_channel, hpar, hex]
  · intro now pf envOf msgTopic st chnl h
    exact channelStep_noop now pf envOf msgTopic st chnl (Or.inr (Or.inl h))
  · intro now pf envOf msgTopic name cs1 cs2 chnl st h
    show (cs1 ++ chnl :: cs2).foldl (channelStep now pf envOf msgTopic) st
      = (cs1 ++ cs2).foldl (channelStep now pf envOf msgTopic) st
    rw [List.foldl_append, List.foldl_append, List.foldl_cons,
      channelStep_noop now pf envOf msgTopic _ chnl (Or.inl h)]
  · intro now pf envOf msgTopic devs1 devs2 dev st h
    show (devs1 ++ dev :: devs2).foldl
        (fun st dev => handle_device now pf envOf msgTopic dev st) st
      = (devs1 ++ devs2).foldl
        (fun st dev => handle_device now pf envOf msgTopic dev st) st
    rw [List.foldl_append, List.foldl_append, List.foldl_cons]
    rw [handle_device_noop now pf envOf msgTopic dev _ h]

/-- Witness for C5 at a concrete input: a channel whose value template
hits a missing key (extraction result absent) is skipped. -/
theorem C5_witness :
    handle_channel
      ⟨["tele", "+", "SENSOR"], "raw", "{value}", none, none, none, "c"⟩
      ⟨true, none, true, [], "m"⟩ (fun _ => none)
      = ChannelResult.skipped :=
  C5_skip_and_isolation.1
    ⟨["tele", "+", "SENSOR"], "raw", "{value}", none, none, none, "c"⟩
    ⟨true, none, true, [], "m"⟩ (fun _ => none) (fun _ => rfl) rfl

/-- Claim C8: deleting a series with `set(name, labels, None)` removes it
when present and is a no-op when absent — a no-op on a never-set series and
idempotent on double-delete — and after setting and then deleting the only
series the metric has zero series and `render` omits it entirely (the
concrete scenario is the last conjunct). -/
theorem C8_set_none_deletes (st : Registry) (m_name : String)
    (labels : List (String × String)) (now now2 : Int) :
    ((∀ e ∈ st, e.1 = m_name →
        seriesName m_name labels ∉ e.2.data.map Prod.fst) →
      PrometheusExporter.set st m_name labels none now = st)
    ∧ PrometheusExporter.set
        (PrometheusExporter.set st m_name labels none now)
        m_name labels none now2
      = PrometheusExporter.set st m_name labels none now
    ∧ PrometheusExporter.set
        (PrometheusExporter.set [("x", ⟨"h", "gauge", [], none⟩)]
          "x" [] (some "5") 0) "x" [] none 1
      = [("x", ⟨"h", "gauge", [], none⟩)]
    ∧ (PrometheusExporter.render [("x", ⟨"h", "gauge", [], none⟩)] 2).1
      = "" := by
  refine ⟨set_none_noop st m_name labels now, ?_, by decide, by decide⟩
  apply set_none_noop
  intro e he hem
  by_cases hk : hasKey st m_name
  · simp only [PrometheusExporter.set, hk, if_true] at he
    obtain ⟨e2, he2, hge⟩ := List.mem_map.mp he
    by_cases hem2 : e2.1 = m_name
    · rw [if_pos hem2] at hge
      rw [← hge]
      simp only [List.mem_map]
      rintro ⟨it, hit, hfst⟩
      have := (List.mem_filter.mp hit).2
      simp only [decide_eq_true_eq] at this
      exact this hfst
    · rw [if_neg hem2] at hge
      exact absurd (hge ▸ hem) hem2
  · simp only [PrometheusExporter.set, hk, if_false] at he
    have : ¬ (hasKey st m_name = true) := by simp [hk]
    exact absurd (List.any_eq_true.mpr ⟨e, he, by simp [hem]⟩) this

/-- Witness for C8 at a concrete input: set value 5 then delete leaves the
metric with zero series. -/
theorem C8_witness :
    PrometheusExporter.set
      (PrometheusExporter.set [("x", ⟨"h", "gauge", [], none⟩)]
        "x" [] (some "5") 0) "x" [] none 1
      = [("x", ⟨"h", "gauge", [], none⟩)] :=
  (C8_set_none_deletes [] "x" [] 0 1).2.2.1

/-- Claim C9: `set` on a measurement name that was never registered leaves
the whole registry unchanged for every labels mapping and every value (the
embedding is a total function, so nothing is raised; the code logs an
error and returns). -/
theorem C9_set_unknown_name (st : Registry) (m_name : String)
    (labels : List (String × String)) (value : Option String) (now : Int)
    (h : hasKey st m_name = false) :
    PrometheusExporter.set st m_name labels value now = st := by
  simp [PrometheusExporter.set, h]

/-- Witness for C9 at a concrete input: setting unknown "y" on a registry
holding only "x" changes nothing. -/
theorem C9_witness :
    PrometheusExporter.set [("x", ⟨"h", "gauge", [], none⟩)] "y"
      [("room", "kitchen")] (some "5") 3
      = [("x", ⟨"h", "gauge", [], none⟩)] :=
  C9_set_unknown_name [("x", ⟨"h", "gauge", [], none⟩)] "y"
    [("room", "kitchen")] (some "5") 3 (by decide)

/-- Claim C10 counterexample: the claim says the string returned by
`render` never ends with a trailing newline, but a stored sample value may
itself end with a newline (here `"5\n"`, reachable through the public
`set`), and then the rendered text ends with that newline character. -/
theorem C10_counterexample :
    PrometheusExporter.register [] "m" "gauge" "h" none
      = Except.ok [("m", ⟨"h", "gauge", [], none⟩)]
    ∧ PrometheusExporter.set [("m", ⟨"h", "gauge", [], none⟩)] "m" []
        (some "5\n") 0
      = [("m", ⟨"h", "gauge", [("m\x7b\x7d", ⟨"5\n", 0⟩)], none⟩)]
    ∧ (PrometheusExporter.render
        [("m", ⟨"h", "gauge", [("m\x7b\x7d", ⟨"5\n", 0⟩)], none⟩)] 1).1
      = "# HELP m h\n# TYPE m gauge\nm\x7b\x7d 5\n"
    ∧ ((PrometheusExporter.render
        [("m", ⟨"h", "gauge", [("m\x7b\x7d", ⟨"5\n", 0⟩)], none⟩)]
        1).1).data.getLast? = some (Char.ofNat 10) :=
  ⟨rfl, rfl, rfl, by decide⟩

/-- Claim C10 as amended: `render` joins its lines with single newline
characters; provided no stored sample value ends with a newline character,
the returned text is empty or does not end with a newline; and whenever
every metric has zero live (non-evicted) series — in particular for a
freshly constructed empty registry — `render` returns the empty string. -/
theorem C10_render_join (st : Registry) (now : Int)
    (hval : ∀ e ∈ st, ∀ it ∈ e.2.data,
      it.2.value.data.getLast? ≠ some (Char.ofNat 10)) :
    ((PrometheusExporter.render st now).1 = ""
      ∨ ((PrometheusExporter.render st now).1).data.getLast?
          ≠ some (Char.ofNat 10))
    ∧ ((∀ e ∈ PrometheusExporter.check_timeout st now, e.2.data = []) →
      (PrometheusExporter.render st now).1 = "")
    ∧ (PrometheusExporter.render ([] : Registry) now).1 = "" := by
  refine ⟨?_, ?_, rfl⟩
  · by_cases hnil : PrometheusExporter.renderLines
        (PrometheusExporter.check_timeout st now) = []
    · left
      show PrometheusExporter.joinLines
        (PrometheusExporter.renderLines
          (PrometheusExporter.check_timeout st now)) = ""
      rw [hnil]
      rfl
    · right
      cases hlast : (PrometheusExporter.renderLines
          (PrometheusExporter.check_timeout st now)).getLast? with
      | none => exact absurd (List.getLast?_eq_none_iff.mp hlast) hnil
      | some last =>
          show (PrometheusExporter.joinLines
            (PrometheusExporter.renderLines
              (PrometheusExporter.check_timeout st now))).data.getLast?
            ≠ some (Char.ofNat 10)
          rw [joinLines_getLast _
            (renderLines_line_ne_nil (PrometheusExporter.check_timeout st now))
            last hlast]
          obtain ⟨e, he, it, hit, hlit⟩ :=
            renderLines_getLast_series
              (PrometheusExporter.check_timeout st now) last hlast
          obtain ⟨e2, he2, hsub⟩ :=
            check_timeout_data_sub st now e he
          rw [hlit]
          exact seriesLine_lastChar it.1 it.2.value
            (hval e2 he2 it (hsub it hit))
  · intro h
    show PrometheusExporter.joinLines
      (PrometheusExporter.renderLines
        (PrometheusExporter.check_timeout st now)) = ""
    rw [renderLines_eq_nil _ h]
    rfl

/-- Witness for C10 (amended) at a concrete input: a one-metric registry
whose only value "5" does not end with a newline; its rendered text is
empty or does not end with a newline, and the all-empty and fresh-registry
cases render to the empty string. -/
theorem C10_witness :
    ((PrometheusExporter.render
        [("m", ⟨"h", "gauge", [("m\x7b\x7d", ⟨"5", 0⟩)], none⟩)] 1).1 = ""
      ∨ ((PrometheusExporter.render
        [("m", ⟨"h", "gauge", [("m\x7b\x7d", ⟨"5", 0⟩)], none⟩)]
        1).1).data.getLast? ≠ some (Char.ofNat 10))
    ∧ ((∀ e ∈ PrometheusExporter.check_timeout
          [("m", ⟨"h", "gauge", [("m\x7b\x7d", ⟨"5", 0⟩)], none⟩)] 1,
        e.2.data = []) →
      (PrometheusExporter.render
        [("m", ⟨"h", "gauge", [("m\x7b\x7d", ⟨"5", 0⟩)], none⟩)] 1).1 = "")
    ∧ (PrometheusExporter.render ([] : Registry) 1).1 = "" :=
  C10_render_join [("m", ⟨"h", "gauge", [("m\x7b\x7d", ⟨"5", 0⟩)], none⟩)] 1
    (by decide)

end Promqtt
